import Mathlib

/-!
# Vernachain consensus / sharding core — a shallow embedding

Shallow embedding of the consensus and sharding core of the Vernachain
repository, together with proofs about it.

Modelling conventions:
* Python `float` values (stakes, rewards, reputation scores, timestamps)
  are modelled as exact rationals `ℚ`.
* `datetime` / `time.time()` values are rationals counting seconds; every
  operation that reads the wall clock takes an explicit `now : ℚ` argument.
* Python `dict` is an insertion-ordered association list `List (α × β)`:
  assignment replaces the value in place when the key is present and
  appends at the end otherwise.
* Python `set` is a duplicate-free `List String`; the list order stands for
  the set's iteration order, which CPython leaves unspecified (it is
  hash-based, not insertion-based).
* `hashlib.sha256(s.encode()).hexdigest()` is an abstract parameter
  `H : String → String` wherever a claim depends on it.
-/

namespace Vernachain

/-- Python `dict` lookup `d.get(k)` / `k in d`, on an association list. -/
def dlookup {β : Type} (l : List (String × β)) (k : String) : Option β :=
  match l with
  | [] => none
  | (k', v) :: rest => if k' = k then some v else dlookup rest k

/-- Python `dict` assignment `d[k] = v`: replaces in place when `k` is
present, appends otherwise (insertion order preserved). -/
def dset {β : Type} (l : List (String × β)) (k : String) (v : β) :
    List (String × β) :=
  match l with
  | [] => [(k, v)]
  | (k', v') :: rest =>
      if k' = k then (k, v) :: rest else (k', v') :: dset rest k v

/-- Python `del d[k]`. -/
def dremove {β : Type} (l : List (String × β)) (k : String) :
    List (String × β) :=
  l.filter (fun p => p.1 ≠ k)

/-- Integer-keyed `dict` lookup (used for shard tables keyed by `int`). -/
def zlookup {β : Type} (l : List (Int × β)) (k : Int) : Option β :=
  match l with
  | [] => none
  | (k', v) :: rest => if k' = k then some v else zlookup rest k

/-- Integer-keyed `dict` assignment. -/
def zset {β : Type} (l : List (Int × β)) (k : Int) (v : β) :
    List (Int × β) :=
  match l with
  | [] => [(k, v)]
  | (k', v') :: rest =>
      if k' = k then (k, v) :: rest else (k', v') :: zset rest k v

/-- Python `set.add`: append when absent. -/
def sadd (l : List String) (a : String) : List String :=
  if a ∈ l then l else l ++ [a]

/-- Python `set.remove` / `set.discard` on a duplicate-free list. -/
def sremove (l : List String) (a : String) : List String :=
  l.filter (fun x => x ≠ a)

theorem mem_dset {β : Type} {l : List (String × β)} {k : String} {v : β}
    {p : String × β} (h : p ∈ dset l k v) : p ∈ l ∨ p = (k, v) := by
  induction l with
  | nil =>
      simp [dset] at h
      exact Or.inr (by simp [h])
  | cons hd tl ih =>
      by_cases hk : hd.1 = k
      · simp [dset, hk] at h
        rcases h with h | h
        · exact Or.inr (by simp [h])
        · exact Or.inl (List.mem_cons_of_mem _ h)
      · simp [dset, hk] at h
        rcases h with h | h
        · exact Or.inl (by simp [h])
        · rcases ih h with h' | h'
          · exact Or.inl (List.mem_cons_of_mem _ h')
          · exact Or.inr h'

/-! ## `src/blockchain/consensus.py` -/

namespace Consensus

/-- `Validator` dataclass of `consensus.py`. -/
structure Validator where
  address : String
  stake : ℚ
  is_active : Bool := true
  last_block_time : ℚ := 0
  consecutive_misses : Nat := 0
  slashed_amount : ℚ := 0
deriving DecidableEq, Repr

/-- `Validator.slash`: `slash_amount = min(amount, self.stake)`;
`self.stake -= slash_amount`; `self.slashed_amount += slash_amount`;
returns the actually slashed amount. -/
def Validator.slash (v : Validator) (amount : ℚ) : Validator × ℚ :=
  let slash_amount := min amount v.stake
  ({ v with
      stake := v.stake - slash_amount,
      slashed_amount := v.slashed_amount + slash_amount },
    slash_amount)

/-- `ProofOfStake.MIN_STAKE`. -/
def MIN_STAKE : ℚ := 100

/-- `ProofOfStake` state: `validators` dict and `active_set` set.  The
list order of `active_set` is the set's iteration order. -/
structure ProofOfStake where
  validators : List (String × Validator) := []
  active_set : List String := []
deriving DecidableEq, Repr

/-- Python indexing `self.validators[addr]`; the code only indexes
addresses in `active_set`, which it keeps registered (a `KeyError`
otherwise).  Theorems about it carry the registration hypothesis. -/
def validatorOf (pos : ProofOfStake) (a : String) : Validator :=
  (dlookup pos.validators a).getD
    { address := a, stake := 0 }

/-- `ProofOfStake.slash_validator`: returns `0.0` for an unknown address;
otherwise slashes via `Validator.slash` and, when the remaining stake
falls below `MIN_STAKE`, discards the validator from the active set and
marks it inactive. -/
def slash_validator (pos : ProofOfStake) (address : String) (amount : ℚ) :
    ProofOfStake × ℚ :=
  match dlookup pos.validators address with
  | none => (pos, 0)
  | some v =>
      let res := v.slash amount
      let v' := res.1
      let v'' :=
        if v'.stake < MIN_STAKE then { v' with is_active := false } else v'
      let active :=
        if v'.stake < MIN_STAKE then sremove pos.active_set address
        else pos.active_set
      ({ pos with
          validators := dset pos.validators address v'',
          active_set := active },
        res.2)

/-- Sum of `self.validators[addr].stake` over a list of addresses. -/
def stakeSum (pos : ProofOfStake) (l : List String) : ℚ :=
  (l.map (fun a => (validatorOf pos a).stake)).sum

/-- The selection loop of `ProofOfStake.select_validator`:
`current_sum += validator.stake; if current_sum >= selection_point:
return validator`. -/
def selectLoop (pos : ProofOfStake) (r : ℚ) :
    List String → ℚ → Option Validator
  | [], _ => none
  | a :: rest, acc =>
      let v := validatorOf pos a
      let acc' := acc + v.stake
      if acc' ≥ r then some v else selectLoop pos r rest acc'

/-- `ProofOfStake.select_validator`, with the random draw
`selection_point = random.uniform(0, total_stake)` made an explicit
argument `r`.  Walks the active set in its iteration order; the final
line of the Python is a fallback to the first iterated validator. -/
def select_validator (pos : ProofOfStake) (r : ℚ) : Option Validator :=
  match pos.active_set with
  | [] => none
  | a :: rest =>
      let total := stakeSum pos (a :: rest)
      if total = 0 then none
      else
        match selectLoop pos r (a :: rest) 0 with
        | some v => some v
        | none => some (validatorOf pos a)

end Consensus

/-! ## `src/blockchain/sharding.py` (and `block.py`) -/

namespace Sharding

/-- `Block` of `block.py`, as the object state the shard chain reads:
`index`, `transactions` (serialized), `timestamp`, `previous_hash`,
`validator`, and the stored `hash` field (the Python constructor fills it
with the SHA-256 of the block's JSON serialization; chain validation only
reads the stored field). -/
structure Block where
  index : Int
  transactions : List String := []
  timestamp : ℚ := 0
  previous_hash : String
  validator : String := ""
  hash : String
deriving DecidableEq, Repr

/-- `CrossShardMessage` dataclass. -/
structure CrossShardMessage where
  from_shard : Int
  to_shard : Int
  transaction_hash : String
  merkle_proof : List String
  status : String := "pending"
deriving DecidableEq, Repr

/-- `ShardInfo` dataclass. -/
structure ShardInfo where
  shard_id : Int
  validator_set : List String := []
  state_root : String := ""
  last_block_height : Int := 0
deriving DecidableEq, Repr

/-- `ShardChain` state. -/
structure ShardChain where
  shard_id : Int
  chain : List Block := []
  pending_messages : List CrossShardMessage := []
  processed_messages : List (String × CrossShardMessage) := []
deriving DecidableEq, Repr

/-- A freshly constructed `ShardChain(shard_id)`. -/
def ShardChain.init (shard_id : Int) : ShardChain := { shard_id }

/-- `ShardChain.is_valid_block`: on the empty chain, `block.index == 0`;
otherwise `block.index == len(self.chain)` and
`block.previous_hash == self.chain[-1].hash`. -/
def ShardChain.is_valid_block (sc : ShardChain) (b : Block) : Bool :=
  match sc.chain.getLast? with
  | none => b.index = 0
  | some prev => b.index = (sc.chain.length : Int) ∧ b.previous_hash = prev.hash

/-- `ShardChain.add_block`: appends when `is_valid_block` holds and
returns `True`; otherwise returns `False` without touching the chain. -/
def ShardChain.add_block (sc : ShardChain) (b : Block) : ShardChain × Bool :=
  if sc.is_valid_block b then
    ({ sc with chain := sc.chain ++ [b] }, true)
  else
    (sc, false)

/-- Folding `add_block` over a sequence of candidate blocks, starting
from the freshly constructed shard chain. -/
def buildChain (shard_id : Int) (bs : List Block) : ShardChain :=
  bs.foldl (fun c b => (c.add_block b).1) (ShardChain.init shard_id)

/-- `MasterChain` state: per-shard info dict and the cross-shard message
dict (keyed by the message hash). -/
structure MasterChain where
  num_shards : Int
  shards : List (Int × ShardInfo) := []
  chain : List Block := []
  cross_shard_messages : List (String × CrossShardMessage) := []
deriving DecidableEq, Repr

/-- `MasterChain.verify_cross_shard_message`, parameterized by the hash
function `H` standing for `sha256(·.encode()).hexdigest()`: looks up the
message, looks up the **source** shard (`if not from_shard` on a
dataclass is only true for `None`), folds `H` over the stored proof
starting from `transaction_hash` — at each step hashing
`current_hash + proof_element` — and compares the result with the source
shard's recorded `state_root`. -/
def MasterChain.verify_cross_shard_message (H : String → String)
    (mc : MasterChain) (message_hash : String) : Bool :=
  match dlookup mc.cross_shard_messages message_hash with
  | none => false
  | some message =>
      match zlookup mc.shards message.from_shard with
      | none => false
      | some from_shard =>
          message.merkle_proof.foldl
            (fun current_hash proof_element => H (current_hash ++ proof_element))
            message.transaction_hash
            = from_shard.state_root

/-- `MasterChain.complete_cross_shard_message`: `False` when the message
hash is unknown; otherwise overwrites the status with `"completed"` or
`"failed"` according to `success` and returns `True` — there is no check
of the message's current status. -/
def MasterChain.complete_cross_shard_message (mc : MasterChain)
    (message_hash : String) (success : Bool) : MasterChain × Bool :=
  match dlookup mc.cross_shard_messages message_hash with
  | none => (mc, false)
  | some message =>
      ({ mc with
          cross_shard_messages :=
            dset mc.cross_shard_messages message_hash
              { message with status := if success then "completed" else "failed" } },
        true)

end Sharding

/-! ## `src/blockchain/transaction_pool.py` and `transaction.py` -/

namespace TxPool

/-- Python runtime errors relevant to the pool. -/
inductive PyError where
  | attributeError (name : String)
deriving DecidableEq, Repr

/-- The object state of `blockchain.transaction.Transaction`: instance
attributes `from_address`, `to_address`, `value`, `nonce`, `timestamp`,
`signature`, `hash`; the class additionally defines the methods `sign`,
`verify`, `_calculate_hash`, `to_dict`, `from_dict` — and nothing else. -/
structure Transaction where
  from_address : String
  to_address : String
  value : ℚ
  nonce : Int
  timestamp : ℚ := 0
  signature : Option String := none
  hash : String
deriving DecidableEq, Repr

/-- The attribute access `transaction.is_valid` performed by the pool:
`Transaction` defines no attribute of that name, so Python raises
`AttributeError`. -/
def Transaction.callIsValid (_ : Transaction) : Except PyError Bool :=
  .error (.attributeError "is_valid")

/-- The attribute access `t.transaction_id` performed by the pool's
duplicate check: also not an attribute of `Transaction`. -/
def Transaction.getTransactionId (_ : Transaction) : Except PyError String :=
  .error (.attributeError "transaction_id")

/-- `TransactionPool` state. -/
structure TransactionPool where
  pending_transactions : List Transaction := []
deriving DecidableEq, Repr

/-- `TransactionPool.add_transaction` as executed: evaluates
`transaction.is_valid()` (raising `AttributeError`), would then reject
duplicates by `transaction_id` (also missing) and append. -/
def TransactionPool.add_transaction (pool : TransactionPool)
    (transaction : Transaction) : Except PyError (TransactionPool × Bool) := do
  let valid ← transaction.callIsValid
  if !valid then
    return (pool, false)
  let tid ← transaction.getTransactionId
  let mut dup := false
  for t in pool.pending_transactions do
    let tid' ← t.getTransactionId
    if tid' = tid then
      dup := true
  if dup then
    return (pool, false)
  return ({ pending_transactions := pool.pending_transactions ++ [transaction] },
    true)

end TxPool

/-! ## `src/consensus/validator_manager.py` -/

namespace Registry

/-- `DelegatorInfo` dataclass. -/
structure DelegatorInfo where
  amount : ℚ := 0
  since : ℚ
  rewards : ℚ := 0
  last_claim : ℚ
deriving DecidableEq, Repr

/-- `ValidatorStats` dataclass. `performance_history` entries are
`(timestamp, event_type, score)`. -/
structure ValidatorStats where
  blocks_proposed : Nat := 0
  blocks_signed : Nat := 0
  missed_blocks : Nat := 0
  invalid_blocks : Nat := 0
  double_signs : Nat := 0
  total_stake : ℚ := 0
  self_stake : ℚ := 0
  delegated_stake : ℚ := 0
  stake_time : ℚ
  last_active : ℚ
  reputation_score : ℚ := 100
  performance_history : List (ℚ × String × ℚ) := []
  delegators : List (String × DelegatorInfo) := []
  commission_rate : ℚ := 1/10
  max_commission : ℚ := 1/5
  unbonding_time : ℚ := 14 * 24 * 3600
  security_deposit : ℚ := 0
deriving DecidableEq, Repr

/-- `ValidatorManager` state. -/
structure ValidatorManager where
  validators : List (String × ValidatorStats) := []
  active_set : List String := []
  jailed_validators : List String := []
  unbonding_queue : List (String × List (String × ℚ × ℚ)) := []
deriving DecidableEq, Repr

/-- The freshly constructed `ValidatorManager()`. -/
def emptyManager : ValidatorManager := {}

/-- `self.min_reputation`. -/
def min_reputation : ℚ := 50

/-- `self.base_reward_rate` (5% annual). -/
def base_reward_rate : ℚ := 1/20

/-- `self.penalty_thresholds['missed_blocks']`. -/
def missed_blocks_threshold : Nat := 10

/-- `self.penalty_thresholds['invalid_blocks']`. -/
def invalid_blocks_threshold : Nat := 3

/-- `self.penalty_thresholds['double_signing']`. -/
def double_signing_threshold : Nat := 1

/-- `self.penalty_thresholds['inactivity']` (6 hours, in seconds). -/
def inactivity_threshold : ℚ := 6 * 3600

/-- `self.max_stake_ratio` (10%). -/
def max_stake_share : ℚ := 1/10

/-- `self.security_deposit_requirement` (2%). -/
def security_deposit_requirement : ℚ := 1/50

/-- `self.max_delegators`. -/
def max_delegators : Nat := 100

/-- `self.min_delegation`. -/
def min_delegation : ℚ := 100

/-- `ValidatorManager.get_min_stake()`. -/
def get_min_stake : ℚ := 1000

/-- Total network stake: `sum(v.total_stake for v in self.validators.values())`. -/
def networkStake (m : ValidatorManager) : ℚ :=
  (m.validators.map (fun p => p.2.total_stake)).sum

/-- `ValidatorManager.register_validator`: fails when the address is
already registered, or when the pre-existing total stake is positive and
`stake_amount / (total_stake + stake_amount) > max_stake_ratio`; on
success stores fresh stats and adds the address to the active set iff
`stake_amount >= get_min_stake()`. -/
def register_validator (m : ValidatorManager) (address : String)
    (stake_amount : ℚ) (security_deposit : ℚ) (now : ℚ) :
    ValidatorManager × Bool :=
  if (dlookup m.validators address).isSome then (m, false)
  else
    let total_stake := networkStake m
    if total_stake > 0 ∧
        stake_amount / (total_stake + stake_amount) > max_stake_share then
      (m, false)
    else
      let stats : ValidatorStats :=
        { total_stake := stake_amount,
          self_stake := stake_amount,
          security_deposit := security_deposit,
          stake_time := now,
          last_active := now }
      let m' := { m with validators := dset m.validators address stats }
      let m'' :=
        if stake_amount ≥ get_min_stake then
          { m' with active_set := sadd m'.active_set address }
        else m'
      (m'', true)

/-- `ValidatorManager.delegate`: fails when the validator is unknown or
`amount < min_delegation`, or when the validator already has
`max_delegators` delegators and this delegator is not among them;
otherwise adds `amount` to the delegator's record (creating it when
absent) and to `delegated_stake` and `total_stake`. -/
def delegate (m : ValidatorManager) (validator_address delegator_address : String)
    (amount : ℚ) (now : ℚ) : ValidatorManager × Bool :=
  match dlookup m.validators validator_address with
  | none => (m, false)
  | some stats =>
      if amount < min_delegation then (m, false)
      else if stats.delegators.length ≥ max_delegators ∧
          (dlookup stats.delegators delegator_address).isNone then
        (m, false)
      else
        let delegators :=
          match dlookup stats.delegators delegator_address with
          | some info =>
              dset stats.delegators delegator_address
                { info with amount := info.amount + amount }
          | none =>
              dset stats.delegators delegator_address
                { amount := amount, since := now, last_claim := now }
        let stats' :=
          { stats with
              delegators := delegators,
              delegated_stake := stats.delegated_stake + amount,
              total_stake := stats.total_stake + amount }
        ({ m with validators := dset m.validators validator_address stats' },
          true)

/-- `ValidatorManager.undelegate`: fails when the validator or delegator
is unknown or `amount` exceeds the delegator's balance; otherwise queues
`(delegator, amount, now + unbonding_time)`, decreases the delegator's
amount, `delegated_stake` and `total_stake`, and deletes the delegator
record when its amount reaches zero. -/
def undelegate (m : ValidatorManager) (validator_address delegator_address : String)
    (amount : ℚ) (now : ℚ) : ValidatorManager × Bool :=
  match dlookup m.validators validator_address with
  | none => (m, false)
  | some stats =>
      match dlookup stats.delegators delegator_address with
      | none => (m, false)
      | some delegator =>
          if amount > delegator.amount then (m, false)
          else
            let queue := (dlookup m.unbonding_queue validator_address).getD []
            let unbonding_queue :=
              dset m.unbonding_queue validator_address
                (queue ++ [(delegator_address, amount,
                  now + stats.unbonding_time)])
            let delegator' := { delegator with amount := delegator.amount - amount }
            let delegators :=
              dset stats.delegators delegator_address delegator'
            let delegators :=
              if delegator'.amount = 0 then dremove delegators delegator_address
              else delegators
            let stats' :=
              { stats with
                  delegators := delegators,
                  delegated_stake := stats.delegated_stake - amount,
                  total_stake := stats.total_stake - amount }
            ({ m with
                validators := dset m.validators validator_address stats',
                unbonding_queue := unbonding_queue },
              true)

/-- `ValidatorManager._apply_penalty` on the reputation score:
`reputation_score = max(0, reputation_score - penalty)` followed by the
gradual restore `+= min(0.1, 100 - reputation_score)` when the score is
above `min_reputation`. -/
def applyPenaltyScore (r penalty : ℚ) : ℚ :=
  let r' := max 0 (r - penalty)
  if r' > min_reputation then r' + min (1/10) (100 - r') else r'

/-- `ValidatorManager.jail_validator`: removes from the active set (when
present) and adds to the jailed set. -/
def jail_validator (m : ValidatorManager) (address : String) : ValidatorManager :=
  { m with
      active_set := sremove m.active_set address,
      jailed_validators := sadd m.jailed_validators address }

/-- `ValidatorManager._check_jail_conditions`: jails when any counter has
reached its threshold. -/
def check_jail_conditions (m : ValidatorManager) (address : String) :
    ValidatorManager :=
  match dlookup m.validators address with
  | none => m
  | some stats =>
      if stats.missed_blocks ≥ missed_blocks_threshold ∨
          stats.invalid_blocks ≥ invalid_blocks_threshold ∨
          stats.double_signs ≥ double_signing_threshold then
        jail_validator m address
      else m

/-- `ValidatorManager._prune_performance_history`: keeps entries whose
timestamp is at least `now - 30 days`. -/
def pruneHistory (now : ℚ) (h : List (ℚ × String × ℚ)) :
    List (ℚ × String × ℚ) :=
  h.filter (fun entry => entry.1 ≥ now - 30 * 24 * 3600)

/-- `ValidatorManager.update_reputation` (the `block_height` argument is
unused by the code).  Updates counters / reputation / history for the
event, applies the inactivity penalty when `now - last_active` exceeds
six hours, prunes the history, stores the stats, and finally checks the
jail conditions. -/
def update_reputation (m : ValidatorManager) (address : String)
    (event_type : String) (now : ℚ) : ValidatorManager :=
  match dlookup m.validators address with
  | none => m
  | some stats =>
      let stats :=
        if event_type = "block_proposed" then
          { stats with
              blocks_proposed := stats.blocks_proposed + 1,
              last_active := now,
              performance_history :=
                stats.performance_history ++ [(now, event_type, 1)] }
        else if event_type = "missed_block" then
          { stats with
              missed_blocks := stats.missed_blocks + 1,
              reputation_score := applyPenaltyScore stats.reputation_score 2,
              performance_history :=
                stats.performance_history ++ [(now, event_type, -2)] }
        else if event_type = "invalid_block" then
          { stats with
              invalid_blocks := stats.invalid_blocks + 1,
              reputation_score := applyPenaltyScore stats.reputation_score 5,
              performance_history :=
                stats.performance_history ++ [(now, event_type, -5)] }
        else if event_type = "double_sign" then
          { stats with
              double_signs := stats.double_signs + 1,
              reputation_score := applyPenaltyScore stats.reputation_score 20,
              performance_history :=
                stats.performance_history ++ [(now, event_type, -20)] }
        else stats
      let stats :=
        if now - stats.last_active > inactivity_threshold then
          { stats with
              reputation_score := applyPenaltyScore stats.reputation_score 1 }
        else stats
      let stats :=
        { stats with
            performance_history := pruneHistory now stats.performance_history }
      let m' := { m with validators := dset m.validators address stats }
      check_jail_conditions m' address

/-- `ValidatorManager._calculate_uptime`. -/
def calculateUptime (stats : ValidatorStats) : ℚ :=
  let total_blocks := stats.blocks_proposed + stats.missed_blocks
  if total_blocks = 0 then 1
  else (stats.blocks_proposed : ℚ) / (total_blocks : ℚ)

/-- `ValidatorManager._calculate_performance_score`, with `math.exp`
abstracted as `expFn`: exponentially decayed average of the history
scores, shifted into `[0, 1]`. -/
def calculatePerformanceScore (expFn : ℚ → ℚ) (now : ℚ)
    (stats : ValidatorStats) : ℚ :=
  if stats.performance_history = [] then 1
  else
    let acc := stats.performance_history.foldl
      (fun (acc : ℚ × ℚ) entry =>
        let age := (now - entry.1) / (30 * 24 * 3600)
        let weight := expFn (-age)
        (acc.1 + entry.2.2 * weight, acc.2 + weight))
      (0, 0)
    max 0 (min 1 ((acc.1 / acc.2 + 1) / 2))

/-- The progressive stake multiplier: the first matching bracket of
`reversed(self.progressive_thresholds)` (500k → 1.2, 100k → 1.15,
50k → 1.1, 10k → 1.05), or `1`. -/
def progressiveMultiplier (total_stake : ℚ) : ℚ :=
  if total_stake ≥ 500000 then 6/5
  else if total_stake ≥ 100000 then 23/20
  else if total_stake ≥ 50000 then 11/10
  else if total_stake ≥ 10000 then 21/20
  else 1

/-- The total reward computed by `ValidatorManager.calculate_rewards`
before distribution: `base_reward * multiplier * (reputation_score / 100)`
with the uptime (1.2), progressive, performance (1.25) and security
(1.05) multipliers. -/
def totalRewardOf (expFn : ℚ → ℚ) (now : ℚ) (stats : ValidatorStats) : ℚ :=
  let base_reward := stats.total_stake * (base_reward_rate / (365 * 24 * 60))
  let multiplier : ℚ := 1
  let multiplier :=
    if calculateUptime stats ≥ 99/100 then multiplier * (6/5) else multiplier
  let multiplier := multiplier * progressiveMultiplier stats.total_stake
  let multiplier :=
    if calculatePerformanceScore expFn now stats ≥ 19/20 then
      multiplier * (5/4)
    else multiplier
  let multiplier :=
    if stats.security_deposit ≥
        stats.total_stake * security_deposit_requirement then
      multiplier * (21/20)
    else multiplier
  base_reward * multiplier * (stats.reputation_score / 100)

/-- `ValidatorManager.calculate_rewards`: `(0.0, {})` for an unknown or
jailed validator; otherwise the validator gets
`(self_stake / total_stake) * total_reward` plus the commission collected
from each delegator's share, and each delegator gets
`share - share * commission_rate`. -/
def calculate_rewards (expFn : ℚ → ℚ) (m : ValidatorManager)
    (address : String) (now : ℚ) : ℚ × List (String × ℚ) :=
  match dlookup m.validators address with
  | none => (0, [])
  | some stats =>
      if address ∈ m.jailed_validators then (0, [])
      else
        let total_reward := totalRewardOf expFn now stats
        let validator_reward := (stats.self_stake / stats.total_stake) * total_reward
        stats.delegators.foldl
          (fun (acc : ℚ × List (String × ℚ)) p =>
            let delegator_share := (p.2.amount / stats.total_stake) * total_reward
            let commission := delegator_share * stats.commission_rate
            (acc.1 + commission, acc.2 ++ [(p.1, delegator_share - commission)]))
          (validator_reward, [])

/-- A Registry operation, for sequences of operations on the manager
(the timestamp argument is the wall clock at the call). -/
inductive RegistryOp where
  | register (address : String) (stake_amount security_deposit now : ℚ)
  | delegate (validator_address delegator_address : String) (amount now : ℚ)
  | undelegate (validator_address delegator_address : String) (amount now : ℚ)
deriving DecidableEq, Repr

/-- Applying one Registry operation (the returned success flag is
discarded: on failure the state is returned unchanged). -/
def applyOp (m : ValidatorManager) : RegistryOp → ValidatorManager
  | .register a s d now => (register_validator m a s d now).1
  | .delegate va da amount now => (delegate m va da amount now).1
  | .undelegate va da amount now => (undelegate m va da amount now).1

/-- Running a sequence of Registry operations from the empty manager. -/
def runOps (ops : List RegistryOp) : ValidatorManager :=
  ops.foldl applyOp emptyManager

end Registry

/-! ## Statement helpers and concrete instances used by the theorems -/

/-- The stake-accounting invariant of the spec:
`total_stake == self_stake + delegated_stake` for every validator. -/
def StakeConsistent (m : Registry.ValidatorManager) : Prop :=
  ∀ p ∈ m.validators, p.2.total_stake = p.2.self_stake + p.2.delegated_stake

/-- The reputation penalty attached to each penalized event kind by
`update_reputation` (−2 missed, −5 invalid, −20 double-sign). -/
def eventPenalty : String → Option ℚ
  | "missed_block" => some 2
  | "invalid_block" => some 5
  | "double_sign" => some 20
  | _ => none

/-- Concrete operation sequence for the C1 witness:
`register A 1000; delegate B→A 500`. -/
def wOpsC1 : List Registry.RegistryOp :=
  [.register "A" 1000 0 0, .delegate "A" "B" 500 0]

/-- The stats recorded for `A` after running `wOpsC1`. -/
def wStatsC1 : Registry.ValidatorStats :=
  { total_stake := 1500, self_stake := 1000, delegated_stake := 500,
    stake_time := 0, last_active := 0,
    delegators := [("B", { amount := 500, since := 0, last_claim := 0 })] }

/-- The shard-chain invariant of the spec: `chain[i].index == i` and
`chain[i].previous_hash == chain[i-1].hash` for `i > 0`. -/
def ChainOK (l : List Sharding.Block) : Prop :=
  (∀ i (h : i < l.length), (l[i]).index = (i : Int)) ∧
  (∀ i (h : i + 1 < l.length), (l[i + 1]).previous_hash = (l[i]).hash)

/-- Candidate genesis block for the C4 witness. -/
def wb0 : Sharding.Block := { index := 0, previous_hash := "p", hash := "h0" }

/-- Candidate successor block for the C4 witness. -/
def wb1 : Sharding.Block := { index := 1, previous_hash := "h0", hash := "h1" }

/-- A `ProofOfStake` state with one registered active validator, for the
C5 witness. -/
def wposC5 : Consensus.ProofOfStake :=
  { validators := [("A", { address := "A", stake := 150 })],
    active_set := ["A"] }

/-- Two validators of equal stake with iteration order `A, B`. -/
def wposC7a : Consensus.ProofOfStake :=
  { validators := [("A", { address := "A", stake := 100 }),
                   ("B", { address := "B", stake := 100 })],
    active_set := ["A", "B"] }

/-- The same validators and the same *set* of active addresses as
`wposC7a`, with iteration order `B, A`. -/
def wposC7b : Consensus.ProofOfStake :=
  { validators := [("A", { address := "A", stake := 100 }),
                   ("B", { address := "B", stake := 100 })],
    active_set := ["B", "A"] }

/-- Stakes 100 and 800 for the C7 witness. -/
def wposC7c : Consensus.ProofOfStake :=
  { validators := [("A", { address := "A", stake := 100 }),
                   ("B", { address := "B", stake := 800 })],
    active_set := ["A", "B"] }

/-- The stats of a freshly registered validator with self-stake 1000 at
time 0 (reputation 100), for the C8 counterexample and witness. -/
def wStatsC8 : Registry.ValidatorStats :=
  { total_stake := 1000, self_stake := 1000, stake_time := 0, last_active := 0 }

/-- A manager holding only the validator `A` with `wStatsC8`. -/
def wmC8 : Registry.ValidatorManager :=
  { validators := [("A", wStatsC8)], active_set := ["A"] }

/-- Stats with one delegator (`B`, 500) on top of self-stake 1000, for
the C10 witness. -/
def wStatsC10 : Registry.ValidatorStats :=
  { total_stake := 1500, self_stake := 1000, delegated_stake := 500,
    stake_time := 0, last_active := 0,
    delegators := [("B", { amount := 500, since := 0, last_claim := 0 })] }

/-- A manager holding only the validator `A` with `wStatsC10`. -/
def wmC10 : Registry.ValidatorManager :=
  { validators := [("A", wStatsC10)], active_set := ["A"] }

/-- A master chain holding one already-completed cross-shard message. -/
def mcC2 : Sharding.MasterChain :=
  { num_shards := 2,
    shards := [(0, { shard_id := 0 }), (1, { shard_id := 1 })],
    cross_shard_messages :=
      [("m", { from_shard := 0, to_shard := 1, transaction_hash := "t",
               merkle_proof := [], status := "completed" })] }

/-! ## Helper lemmas -/

theorem dlookup_mem {β : Type} {l : List (String × β)} {k : String} {v : β}
    (h : dlookup l k = some v) : (k, v) ∈ l := by
  induction l with
  | nil => simp [dlookup] at h
  | cons hd tl ih =>
      obtain ⟨k0, v0⟩ := hd
      by_cases hk : k0 = k
      · subst hk
        simp [dlookup] at h
        subst h
        exact List.mem_cons_self _ _
      · simp [dlookup, hk] at h
        exact List.mem_cons_of_mem _ (ih h)

theorem dlookup_dset_self {β : Type} (l : List (String × β)) (k : String)
    (v : β) : dlookup (dset l k v) k = some v := by
  induction l with
  | nil => simp [dset, dlookup]
  | cons hd tl ih =>
      by_cases hk : hd.1 = k
      · simp [dset, hk, dlookup]
      · simp [dset, hk, dlookup, ih]

theorem mem_sadd (l : List String) (a x : String) :
    x ∈ sadd l a ↔ x ∈ l ∨ x = a := by
  by_cases h : a ∈ l
  · simp [sadd, h]
    intro hx
    subst hx
    exact h
  · simp [sadd, h]

theorem not_mem_sremove_self (l : List String) (a : String) :
    a ∉ sremove l a := by
  simp [sremove]

theorem mem_sremove (l : List String) (a x : String) :
    x ∈ sremove l a ↔ x ∈ l ∧ x ≠ a := by
  simp [sremove]

/-! ## C9 — `TransactionPool.add_transaction` -/

/-- **C9** (code bug): `TransactionPool.add_transaction` is specified to
reject malformed transactions and duplicates and append otherwise without
ever crashing, but as written it evaluates `transaction.is_valid()` — an
attribute `blockchain.transaction.Transaction` does not define — so it
raises `AttributeError` on every input instead of returning a boolean. -/
theorem add_transaction_always_raises (pool : TxPool.TransactionPool)
    (t : TxPool.Transaction) :
    pool.add_transaction t = .error (.attributeError "is_valid") := rfl

/-! ## C2 — at-most-once completion of cross-shard messages -/

/-- **C2** (counterexample): re-invoking `complete_cross_shard_message` on
a message whose status is already `"completed"` does *not* fail: it
returns `True` and even overwrites the status (here back to `"failed"`),
so the claimed at-most-once transition is not enforced by the code. -/
theorem complete_message_recompletion_succeeds :
    (dlookup mcC2.cross_shard_messages "m").map
        Sharding.CrossShardMessage.status = some "completed" ∧
    (mcC2.complete_cross_shard_message "m" true).2 = true ∧
    (mcC2.complete_cross_shard_message "m" false).2 = true ∧
    (dlookup (mcC2.complete_cross_shard_message "m" false).1.cross_shard_messages
        "m").map Sharding.CrossShardMessage.status = some "failed" := by
  refine ⟨rfl, rfl, rfl, rfl⟩

/-- **C2** (amended): `complete_cross_shard_message` succeeds for every
*stored* message regardless of its current status, overwriting the status
with `"completed"`/`"failed"` according to `success`; it returns `False`
(leaving the chain unchanged) only when the message id is unknown.  The
code does not enforce an at-most-once transition. -/
theorem complete_cross_shard_message_spec (mc : Sharding.MasterChain)
    (message_hash : String) (success : Bool) :
    ((mc.complete_cross_shard_message message_hash success).2 = true ↔
      (dlookup mc.cross_shard_messages message_hash).isSome) ∧
    (∀ msg, dlookup mc.cross_shard_messages message_hash = some msg →
      dlookup (mc.complete_cross_shard_message message_hash success).1.cross_shard_messages
          message_hash =
        some { msg with status := if success then "completed" else "failed" }) ∧
    ((mc.complete_cross_shard_message message_hash success).2 = false →
      (mc.complete_cross_shard_message message_hash success).1 = mc) := by
  unfold Sharding.MasterChain.complete_cross_shard_message
  cases h : dlookup mc.cross_shard_messages message_hash with
  | none =>
      refine ⟨by simp, ?_, by simp⟩
      intro msg hmsg
      exact absurd hmsg (by simp)
  | some msg =>
      refine ⟨by simp, ?_, by simp⟩
      intro msg' hmsg'
      injection hmsg' with he
      subst he
      simp [dlookup_dset_self]

/-- Witness for C2's amended theorem at the concrete chain `mcC2`. -/
theorem complete_cross_shard_message_spec_witness :
    dlookup (mcC2.complete_cross_shard_message "m" true).1.cross_shard_messages
        "m" =
      some { from_shard := 0, to_shard := 1, transaction_hash := "t",
             merkle_proof := [], status := "completed" } :=
  (complete_cross_shard_message_spec mcC2 "m" true).2.1
    { from_shard := 0, to_shard := 1, transaction_hash := "t",
      merkle_proof := [], status := "completed" } rfl

/-! ## C3 — `verify_cross_shard_message` -/

/-- **C3** (confirmed): `verify_cross_shard_message` returns `True`
exactly when the message id is stored, its source shard exists, and
folding the hash over the stored Merkle proof starting from the message's
`transaction_hash` (each step hashing `current_hash + proof_element`)
yields the source shard's currently recorded `state_root`; being a pure
function of the stored message and the shard table, repeated invocations
agree. -/
theorem verify_cross_shard_message_spec (H : String → String)
    (mc : Sharding.MasterChain) (message_hash : String) :
    (mc.verify_cross_shard_message H message_hash = true ↔
      ∃ msg shard,
        dlookup mc.cross_shard_messages message_hash = some msg ∧
        zlookup mc.shards msg.from_shard = some shard ∧
        msg.merkle_proof.foldl
            (fun current_hash proof_element => H (current_hash ++ proof_element))
            msg.transaction_hash = shard.state_root) ∧
    mc.verify_cross_shard_message H message_hash =
      mc.verify_cross_shard_message H message_hash := by
  refine ⟨?_, rfl⟩
  unfold Sharding.MasterChain.verify_cross_shard_message
  cases h : dlookup mc.cross_shard_messages message_hash with
  | none => simp [h]
  | some msg =>
      cases hs : zlookup mc.shards msg.from_shard with
      | none => simp [h, hs]
      | some shard => simp [h, hs]

/-! ## C1 — stake accounting invariant of the Registry -/

theorem stakeConsistent_applyOp (m : Registry.ValidatorManager)
    (op : Registry.RegistryOp) (h : StakeConsistent m) :
    StakeConsistent (Registry.applyOp m op) := by
  intro p hp
  cases op with
  | register a s d now =>
      simp only [Registry.applyOp, Registry.register_validator] at hp
      by_cases h1 : (dlookup m.validators a).isSome = true
      · rw [if_pos h1] at hp
        exact h p hp
      · rw [if_neg h1] at hp
        by_cases h2 : Registry.networkStake m > 0 ∧
            s / (Registry.networkStake m + s) > Registry.max_stake_share
        · rw [if_pos h2] at hp
          exact h p hp
        · rw [if_neg h2] at hp
          by_cases h3 : s ≥ Registry.get_min_stake
          · rw [if_pos h3] at hp
            rcases mem_dset hp with hmem | heq
            · exact h p hmem
            · subst heq
              show s = s + 0
              ring
          · rw [if_neg h3] at hp
            rcases mem_dset hp with hmem | heq
            · exact h p hmem
            · subst heq
              show s = s + 0
              ring
  | delegate va da amount now =>
      cases hd : dlookup m.validators va with
      | none =>
          simp only [Registry.applyOp, Registry.delegate, hd] at hp
          exact h p hp
      | some stats =>
          simp only [Registry.applyOp, Registry.delegate, hd] at hp
          by_cases h1 : amount < Registry.min_delegation
          · rw [if_pos h1] at hp
            exact h p hp
          · rw [if_neg h1] at hp
            by_cases h2 : stats.delegators.length ≥ Registry.max_delegators ∧
                (dlookup stats.delegators da).isNone = true
            · rw [if_pos h2] at hp
              exact h p hp
            · rw [if_neg h2] at hp
              rcases mem_dset hp with hmem | heq
              · exact h p hmem
              · subst heq
                have hv := h _ (dlookup_mem hd)
                show stats.total_stake + amount =
                  stats.self_stake + (stats.delegated_stake + amount)
                rw [hv]
                ring
  | undelegate va da amount now =>
      cases hd : dlookup m.validators va with
      | none =>
          simp only [Registry.applyOp, Registry.undelegate, hd] at hp
          exact h p hp
      | some stats =>
          cases hd2 : dlookup stats.delegators da with
          | none =>
              simp only [Registry.applyOp, Registry.undelegate, hd, hd2] at hp
              exact h p hp
          | some delegator =>
              simp only [Registry.applyOp, Registry.undelegate, hd, hd2] at hp
              by_cases h1 : amount > delegator.amount
              · rw [if_pos h1] at hp
                exact h p hp
              · rw [if_neg h1] at hp
                rcases mem_dset hp with hmem | heq
                · exact h p hmem
                · subst heq
                  have hv := h _ (dlookup_mem hd)
                  show stats.total_stake - amount =
                    stats.self_stake + (stats.delegated_stake - amount)
                  rw [hv]
                  ring

/-- **C1** (confirmed): for every sequence of Registry operations
(`register_validator`, `delegate`, `undelegate`) applied from the empty
`ValidatorManager`, every validator in the resulting manager satisfies
`total_stake == self_stake + delegated_stake`. -/
theorem registry_total_stake_invariant (ops : List Registry.RegistryOp)
    (address : String) (stats : Registry.ValidatorStats)
    (h : (address, stats) ∈ (Registry.runOps ops).validators) :
    stats.total_stake = stats.self_stake + stats.delegated_stake := by
  have key : ∀ (l : List Registry.RegistryOp) (m : Registry.ValidatorManager),
      StakeConsistent m → StakeConsistent (l.foldl Registry.applyOp m) := by
    intro l
    induction l with
    | nil => exact fun m hm => hm
    | cons op rest ih =>
        exact fun m hm => ih _ (stakeConsistent_applyOp m op hm)
  have h0 : StakeConsistent Registry.emptyManager := by
    intro p hp
    simp [Registry.emptyManager] at hp
  exact key ops _ h0 _ h

/-- Witness for C1 at the concrete run `register A 1000; delegate B→A 500`:
the resulting stats for `A` hold `1500 = 1000 + 500`. -/
theorem registry_total_stake_invariant_witness :
    ("A", wStatsC1) ∈ (Registry.runOps wOpsC1).validators ∧
      wStatsC1.total_stake = wStatsC1.self_stake + wStatsC1.delegated_stake := by
  have hmem : ("A", wStatsC1) ∈ (Registry.runOps wOpsC1).validators := by
    norm_num [Registry.runOps, Registry.applyOp, Registry.register_validator,
      Registry.delegate, Registry.emptyManager, Registry.networkStake,
      Registry.get_min_stake, Registry.min_delegation, Registry.max_stake_share,
      Registry.max_delegators, List.foldl_cons, List.foldl_nil,
      dlookup, dset, sadd, wOpsC1, wStatsC1]
  exact ⟨hmem, registry_total_stake_invariant wOpsC1 "A" wStatsC1 hmem⟩

/-! ## C4 — shard-chain hash linking -/

theorem is_valid_block_iff (sc : Sharding.ShardChain) (b : Sharding.Block) :
    sc.is_valid_block b = true ↔
      (sc.chain = [] ∧ b.index = 0) ∨
      (∃ prev, sc.chain.getLast? = some prev ∧
        b.index = (sc.chain.length : Int) ∧ b.previous_hash = prev.hash) := by
  unfold Sharding.ShardChain.is_valid_block
  cases hl : sc.chain.getLast? with
  | none =>
      have he : sc.chain = [] := List.getLast?_eq_none_iff.mp hl
      simp [he]
  | some prev =>
      have hne : sc.chain ≠ [] := by
        intro he
        rw [he] at hl
        exact absurd hl (by simp)
      simp only [decide_eq_true_eq]
      constructor
      · intro h
        exact Or.inr ⟨prev, rfl, h.1, h.2⟩
      · rintro (⟨he, _⟩ | ⟨prev', hpl, h1, h2⟩)
        · exact absurd he hne
        · injection hpl with he2
          subst he2
          exact ⟨h1, h2⟩

theorem chainOK_append (l : List Sharding.Block) (b : Sharding.Block)
    (h : ChainOK l) (hidx : b.index = (l.length : Int))
    (hprev : ∀ prev, l.getLast? = some prev → b.previous_hash = prev.hash) :
    ChainOK (l ++ [b]) := by
  constructor
  · intro i hi
    simp only [List.length_append, List.length_cons, List.length_nil] at hi
    by_cases hlt : i < l.length
    · rw [List.getElem_append_left hlt]
      exact h.1 i hlt
    · have hie : i = l.length := by omega
      rw [List.getElem_concat_length l b i hie]
      rw [hie]
      exact hidx
  · intro i hi
    simp only [List.length_append, List.length_cons, List.length_nil] at hi
    by_cases hlt : i + 1 < l.length
    · rw [List.getElem_append_left hlt,
        List.getElem_append_left (Nat.lt_of_succ_lt hlt)]
      exact h.2 i hlt
    · have hie : i + 1 = l.length := by omega
      have hi0 : i < l.length := by omega
      rw [List.getElem_concat_length l b (i + 1) hie,
        List.getElem_append_left hi0]
      have hlast : l.getLast? = some (l[i]) := by
        rw [List.getLast?_eq_getElem?]
        have hd : l.length - 1 = i := by omega
        rw [hd, List.getElem?_eq_getElem hi0]
      exact hprev _ hlast

theorem chainOK_add_block (sc : Sharding.ShardChain) (b : Sharding.Block)
    (h : ChainOK sc.chain) : ChainOK ((sc.add_block b).1).chain := by
  unfold Sharding.ShardChain.add_block
  by_cases hv : sc.is_valid_block b = true
  · rw [if_pos hv]
    rcases (is_valid_block_iff sc b).mp hv with ⟨he, hidx⟩ | ⟨prev, hlast, hidx, hprev⟩
    · refine chainOK_append sc.chain b h ?_ ?_
      · rw [he]
        simpa using hidx
      · intro prev hp
        rw [he] at hp
        simp at hp
    · refine chainOK_append sc.chain b h hidx ?_
      intro prev' hp
      rw [hlast] at hp
      injection hp with he2
      rw [← he2]
      exact hprev
  · rw [if_neg hv]
    exact h

/-- **C4** (confirmed): `add_block` appends `block` and returns `True`
exactly when `index == len(chain)` and `previous_hash` matches the last
block's hash (on the empty chain: `index == 0`), returning `False` and
leaving the chain unchanged otherwise; consequently every chain reachable
from the empty chain by `add_block` calls satisfies `chain[i].index == i`
and `chain[i].previous_hash == chain[i-1].hash` for `i > 0`. -/
theorem shard_chain_add_block_spec :
    (∀ (sc : Sharding.ShardChain) (b : Sharding.Block),
      ((sc.add_block b).2 = true ↔
        (sc.chain = [] ∧ b.index = 0) ∨
        (∃ prev, sc.chain.getLast? = some prev ∧
          b.index = (sc.chain.length : Int) ∧ b.previous_hash = prev.hash)) ∧
      ((sc.add_block b).2 = true → (sc.add_block b).1.chain = sc.chain ++ [b]) ∧
      ((sc.add_block b).2 = false → (sc.add_block b).1 = sc)) ∧
    (∀ (sid : Int) (bs : List Sharding.Block),
      ChainOK (Sharding.buildChain sid bs).chain) := by
  constructor
  · intro sc b
    refine ⟨?_, ?_, ?_⟩
    · rw [← is_valid_block_iff]
      unfold Sharding.ShardChain.add_block
      by_cases hv : sc.is_valid_block b = true <;> simp [hv]
    · intro ht
      unfold Sharding.ShardChain.add_block at ht ⊢
      by_cases hv : sc.is_valid_block b = true
      · simp [hv]
      · simp [hv] at ht
    · intro hf
      unfold Sharding.ShardChain.add_block at hf ⊢
      by_cases hv : sc.is_valid_block b = true
      · simp [hv] at hf
      · simp [hv]
  · intro sid bs
    have key : ∀ (l : List Sharding.Block) (sc : Sharding.ShardChain),
        ChainOK sc.chain →
        ChainOK (l.foldl (fun c b => (c.add_block b).1) sc).chain := by
      intro l
      induction l with
      | nil => exact fun sc h => h
      | cons b rest ih =>
          exact fun sc h => ih _ (chainOK_add_block sc b h)
    refine key bs _ ⟨?_, ?_⟩ <;>
    · intro i hi
      simp [Sharding.ShardChain.init] at hi

/-- Witness for C4: appending the genesis candidate to the fresh chain
succeeds, and the two-block chain built from `wb0, wb1` links block 1 to
block 0's hash. -/
theorem shard_chain_add_block_spec_witness :
    ((Sharding.ShardChain.init 7).add_block wb0).2 = true ∧
    ((Sharding.buildChain 7 [wb0, wb1]).chain.get ⟨0 + 1, by decide⟩).previous_hash =
      ((Sharding.buildChain 7 [wb0, wb1]).chain.get ⟨0, by decide⟩).hash :=
  ⟨(shard_chain_add_block_spec.1 (Sharding.ShardChain.init 7) wb0).1.mpr
      (Or.inl ⟨rfl, rfl⟩),
    (shard_chain_add_block_spec.2 7 [wb0, wb1]).2 0 (by decide)⟩

/-! ## C5 — slashing -/

/-- **C5** (confirmed): for every registered validator,
`slash_validator` returns `min(amount, current_stake)`, leaves the stake
non-negative, adds the actually-slashed amount to `slashed_amount`, and
demotes the validator (removes it from the active set and clears
`is_active`) exactly when the remaining stake falls below `MIN_STAKE`. -/
theorem slash_validator_spec (pos : Consensus.ProofOfStake)
    (address : String) (amount : ℚ) (v : Consensus.Validator)
    (hv : dlookup pos.validators address = some v) :
    (Consensus.slash_validator pos address amount).2 = min amount v.stake ∧
    ∃ v', dlookup (Consensus.slash_validator pos address amount).1.validators
        address = some v' ∧
      v'.stake = v.stake - min amount v.stake ∧
      0 ≤ v'.stake ∧
      v'.slashed_amount = v.slashed_amount + min amount v.stake ∧
      v'.is_active =
        (if v.stake - min amount v.stake < Consensus.MIN_STAKE then false
         else v.is_active) ∧
      (address ∈ (Consensus.slash_validator pos address amount).1.active_set ↔
        address ∈ pos.active_set ∧
          ¬(v.stake - min amount v.stake < Consensus.MIN_STAKE)) := by
  by_cases hb : v.stake - min amount v.stake < Consensus.MIN_STAKE
  · refine
      ⟨?_,
        { v with
            stake := v.stake - min amount v.stake,
            slashed_amount := v.slashed_amount + min amount v.stake,
            is_active := false },
        ?_, rfl, ?_, rfl, ?_, ?_⟩
    · simp [Consensus.slash_validator, Consensus.Validator.slash, hv]
    · simp [Consensus.slash_validator, Consensus.Validator.slash, hv,
        if_pos hb, dlookup_dset_self]
    · show 0 ≤ v.stake - min amount v.stake
      have := min_le_right amount v.stake
      linarith
    · show false = _
      rw [if_pos hb]
    · simp only [Consensus.slash_validator, Consensus.Validator.slash, hv,
        if_pos hb]
      simp [mem_sremove, hb]
  · refine
      ⟨?_,
        { v with
            stake := v.stake - min amount v.stake,
            slashed_amount := v.slashed_amount + min amount v.stake },
        ?_, rfl, ?_, rfl, ?_, ?_⟩
    · simp [Consensus.slash_validator, Consensus.Validator.slash, hv]
    · simp [Consensus.slash_validator, Consensus.Validator.slash, hv,
        if_neg hb, dlookup_dset_self]
    · show 0 ≤ v.stake - min amount v.stake
      have := min_le_right amount v.stake
      linarith
    · show v.is_active = _
      rw [if_neg hb]
    · simp only [Consensus.slash_validator, Consensus.Validator.slash, hv,
        if_neg hb]
      simp [hb]

/-- Witness for C5: slashing 100 from a validator with stake 150 returns
`min(100, 150)`. -/
theorem slash_validator_spec_witness :
    (Consensus.slash_validator wposC5 "A" 100).2 = min 100 ((150 : ℚ)) :=
  (slash_validator_spec wposC5 "A" 100 { address := "A", stake := 150 } rfl).1

/-! ## C6 — maximum stake share at registration -/

/-- **C6** (counterexample): registering the first validator into the
empty registry succeeds although it then holds 100% of the network stake
(the ratio check is skipped when the pre-existing total stake is zero),
so "no validator's total_stake exceeds 10% of total network stake after
every successful registration" is false. -/
theorem first_validator_exceeds_cap :
    (Registry.register_validator Registry.emptyManager "A" 1000 0 0).2 = true ∧
    (dlookup (Registry.register_validator Registry.emptyManager "A" 1000 0 0).1.validators
        "A").map Registry.ValidatorStats.total_stake = some 1000 ∧
    Registry.networkStake
        (Registry.register_validator Registry.emptyManager "A" 1000 0 0).1 = 1000 ∧
    ¬((1000 : ℚ) ≤ Registry.max_stake_share * 1000) := by
  refine ⟨?_, ?_, ?_, ?_⟩ <;>
    norm_num [Registry.register_validator, Registry.emptyManager,
      Registry.networkStake, Registry.get_min_stake, Registry.max_stake_share,
      dlookup, dset, sadd]

/-- **C6** (amended): `register_validator` succeeds exactly when the
address is unregistered and it is *not* the case that the pre-existing
total stake is positive and `stake/(total+stake)` exceeds
`max_stake_ratio`; hence the 10% cap binds only the registrant and only
when the registry already holds positive stake (the first validator can
take 100%); on failure the manager is unchanged.  The non-negativity
hypotheses exclude the corner `total + stake = 0`, where the Python
would raise `ZeroDivisionError`. -/
theorem register_validator_spec (m : Registry.ValidatorManager)
    (address : String) (stake_amount security_deposit now : ℚ)
    (hsn : 0 ≤ stake_amount) (hnn : 0 ≤ Registry.networkStake m) :
    ((Registry.register_validator m address stake_amount security_deposit now).2 =
        true ↔
      (dlookup m.validators address).isNone ∧
        ¬(Registry.networkStake m > 0 ∧
          stake_amount / (Registry.networkStake m + stake_amount) >
            Registry.max_stake_share)) ∧
    ((Registry.register_validator m address stake_amount security_deposit now).2 =
        true →
      Registry.networkStake m > 0 →
      stake_amount / (Registry.networkStake m + stake_amount) ≤
        Registry.max_stake_share) ∧
    ((Registry.register_validator m address stake_amount security_deposit now).2 =
        false →
      (Registry.register_validator m address stake_amount security_deposit now).1 =
        m) := by
  have hiff : (Registry.register_validator m address stake_amount security_deposit
      now).2 = true ↔
      (dlookup m.validators address).isNone ∧
        ¬(Registry.networkStake m > 0 ∧
          stake_amount / (Registry.networkStake m + stake_amount) >
            Registry.max_stake_share) := by
    unfold Registry.register_validator
    cases hl : dlookup m.validators address with
    | some v => simp [hl]
    | none =>
        by_cases h2 : Registry.networkStake m > 0 ∧
            stake_amount / (Registry.networkStake m + stake_amount) >
              Registry.max_stake_share
        · simp [hl, if_pos h2, h2]
        · simp [hl, if_neg h2, h2]
  refine ⟨hiff, ?_, ?_⟩
  · intro ht hpos
    have h2 := (hiff.mp ht).2
    have h3 : ¬(stake_amount / (Registry.networkStake m + stake_amount) >
        Registry.max_stake_share) := fun hr => h2 ⟨hpos, hr⟩
    exact le_of_not_lt h3
  · intro hf
    unfold Registry.register_validator at hf ⊢
    cases hl : dlookup m.validators address with
    | some v => simp [hl]
    | none =>
        rw [hl] at hf
        by_cases h2 : Registry.networkStake m > 0 ∧
            stake_amount / (Registry.networkStake m + stake_amount) >
              Registry.max_stake_share
        · simp [hl, if_pos h2]
        · rw [if_neg h2] at hf
          simp at hf

/-- Witness for C6's amended theorem: on a registry already holding
1500 total stake, registering `C` with stake 50 succeeds, and the
registrant's share 50/1550 respects the 10% cap. -/
theorem register_validator_spec_witness :
    (Registry.register_validator wmC10 "C" 50 0 0).2 = true ∧
      (50 : ℚ) / (Registry.networkStake wmC10 + 50) ≤
        Registry.max_stake_share := by
  have hnet : Registry.networkStake wmC10 = 1500 := by
    simp only [Registry.networkStake, wmC10, wStatsC10, List.map_cons,
      List.map_nil, List.sum_cons, List.sum_nil]
    norm_num
  have hnone : (dlookup wmC10.validators "C").isNone = true := by
    simp only [wmC10, dlookup, String.reduceEq, reduceIte, Option.isNone_none]
  have hspec := register_validator_spec wmC10 "C" 50 0 0 (by norm_num)
    (by rw [hnet]; norm_num)
  have hguard : ¬(Registry.networkStake wmC10 > 0 ∧
      (50 : ℚ) / (Registry.networkStake wmC10 + 50) >
        Registry.max_stake_share) := by
    rw [hnet]
    norm_num [Registry.max_stake_share]
  have hsucc := hspec.1.mpr ⟨hnone, hguard⟩
  exact ⟨hsucc, hspec.2.1 hsucc (by rw [hnet]; norm_num)⟩

/-! ## C7 — stake-weighted validator selection -/

theorem stakeSum_nil (pos : Consensus.ProofOfStake) :
    Consensus.stakeSum pos [] = 0 := rfl

theorem stakeSum_cons (pos : Consensus.ProofOfStake) (a : String)
    (l : List String) :
    Consensus.stakeSum pos (a :: l) =
      (Consensus.validatorOf pos a).stake + Consensus.stakeSum pos l := by
  simp [Consensus.stakeSum]

/-- **C7** (counterexample): two `ProofOfStake` states with identical
validator tables and the same *set* of active addresses — differing only
in the set's iteration order, which CPython does not tie to insertion
order — select different validators for the same draw `r = 50`.  The
claimed deterministic insertion-order (earliest-registration) tie-break
is therefore not a property of the code, which iterates a Python `set`. -/
theorem select_validator_order_dependent :
    wposC7a.validators = wposC7b.validators ∧
    wposC7a.active_set.Perm wposC7b.active_set ∧
    Consensus.select_validator wposC7a 50 =
      some { address := "A", stake := 100 } ∧
    Consensus.select_validator wposC7b 50 =
      some { address := "B", stake := 100 } := by
  refine ⟨rfl, by decide, ?_, ?_⟩ <;>
  · simp only [Consensus.select_validator, Consensus.stakeSum,
      Consensus.selectLoop, Consensus.validatorOf, dlookup, wposC7a, wposC7b,
      List.map_cons, List.map_nil, List.sum_cons, List.sum_nil,
      String.reduceEq, reduceIte, Option.getD_some]
    norm_num

theorem selectLoop_first_hit (pos : Consensus.ProofOfStake) (r : ℚ)
    (l : List String) :
    ∀ (acc : ℚ) (i : Nat) (hi : i < l.length),
      r ≤ acc + Consensus.stakeSum pos (l.take (i + 1)) →
      (∀ j, j < i → acc + Consensus.stakeSum pos (l.take (j + 1)) < r) →
      Consensus.selectLoop pos r l acc =
        some (Consensus.validatorOf pos (l.get ⟨i, hi⟩)) := by
  induction l with
  | nil =>
      intro acc i hi
      simp at hi
  | cons a rest ih =>
      intro acc i hi hge hlt
      cases i with
      | zero =>
          rw [List.take_succ_cons, List.take_zero, stakeSum_cons,
            stakeSum_nil] at hge
          simp only [Consensus.selectLoop]
          rw [if_pos (by simp only [ge_iff_le]; linarith)]
          simp
      | succ k =>
          have h0 : acc + Consensus.stakeSum pos ((a :: rest).take 1) < r :=
            hlt 0 (Nat.succ_pos k)
          rw [List.take_succ_cons, List.take_zero, stakeSum_cons,
            stakeSum_nil] at h0
          simp only [Consensus.selectLoop]
          rw [if_neg (by simp only [ge_iff_le, not_le]; linarith)]
          have hk : k < rest.length := Nat.lt_of_succ_lt_succ hi
          have hge' : r ≤ (acc + (Consensus.validatorOf pos a).stake) +
              Consensus.stakeSum pos (rest.take (k + 1)) := by
            rw [List.take_succ_cons, stakeSum_cons] at hge
            linarith
          have hlt' : ∀ j, j < k →
              (acc + (Consensus.validatorOf pos a).stake) +
                Consensus.stakeSum pos (rest.take (j + 1)) < r := by
            intro j hj
            have hj1 := hlt (j + 1) (Nat.succ_lt_succ hj)
            rw [List.take_succ_cons, stakeSum_cons] at hj1
            linarith
          simpa using ih (acc + (Consensus.validatorOf pos a).stake) k hk hge' hlt'

/-- **C7** (amended): `select_validator` returns nothing exactly when the
active set is empty or the total active stake is zero; otherwise it walks
the active set in the *set's iteration order* (which the code does not
tie to insertion order), accumulating stake, and returns the first
validator whose cumulative stake is `>= r`. -/
theorem select_validator_spec (pos : Consensus.ProofOfStake) (r : ℚ) :
    (Consensus.select_validator pos r = none ↔
      pos.active_set = [] ∨ Consensus.stakeSum pos pos.active_set = 0) ∧
    (∀ i (hi : i < pos.active_set.length),
      Consensus.stakeSum pos pos.active_set ≠ 0 →
      r ≤ Consensus.stakeSum pos (pos.active_set.take (i + 1)) →
      (∀ j, j < i → Consensus.stakeSum pos (pos.active_set.take (j + 1)) < r) →
      Consensus.select_validator pos r =
        some (Consensus.validatorOf pos (pos.active_set.get ⟨i, hi⟩))) := by
  cases hl : pos.active_set with
  | nil =>
      constructor
      · simp [Consensus.select_validator, hl]
      · intro i hi
        simp at hi
  | cons a rest =>
      by_cases hz : Consensus.stakeSum pos (a :: rest) = 0
      · constructor
        · simp only [Consensus.select_validator, hl]
          rw [if_pos hz]
          simp [hz]
        · intro i hi hz2
          exact absurd hz hz2
      · constructor
        · constructor
          · intro hnone
            exfalso
            revert hnone
            simp only [Consensus.select_validator, hl]
            rw [if_neg hz]
            cases hsl : Consensus.selectLoop pos r (a :: rest) 0 <;> simp
          · rintro (he | hz')
            · exact absurd he (List.cons_ne_nil a rest)
            · exact absurd hz' hz
        · intro i hi hz2 hge hlt
          have hloop := selectLoop_first_hit pos r (a :: rest) 0 i hi
            (by simpa using hge) (by intro j hj; simpa using hlt j hj)
          simp only [Consensus.select_validator, hl]
          rw [if_neg hz, hloop]

/-- Witness for C7's amended theorem: with stakes `A:100, B:800` and draw
`r = 150`, the first cumulative stake `>= 150` is reached at `B`. -/
theorem select_validator_spec_witness :
    Consensus.select_validator wposC7c 150 =
      some { address := "B", stake := 800 } :=
  (select_validator_spec wposC7c 150).2 1 (by decide)
    (by
      rw [show wposC7c.active_set = ["A", "B"] from rfl, stakeSum_cons,
        stakeSum_cons, stakeSum_nil]
      simp only [Consensus.validatorOf, dlookup, wposC7c, String.reduceEq,
        reduceIte, Option.getD_some]
      norm_num)
    (by
      rw [show wposC7c.active_set.take 2 = ["A", "B"] from rfl, stakeSum_cons,
        stakeSum_cons, stakeSum_nil]
      simp only [Consensus.validatorOf, dlookup, wposC7c, String.reduceEq,
        reduceIte, Option.getD_some]
      norm_num)
    (by
      intro j hj
      have hj0 : j = 0 := by omega
      subst hj0
      rw [show wposC7c.active_set.take 1 = ["A"] from rfl, stakeSum_cons,
        stakeSum_nil]
      simp only [Consensus.validatorOf, dlookup, wposC7c, String.reduceEq,
        reduceIte, Option.getD_some]
      norm_num)

/-! ## C8 — reputation penalties and jailing -/

theorem applyPenaltyScore_upper (r p : ℚ) (hp2 : 2 ≤ p) (h1 : 50 < r - p)
    (h2 : r ≤ 100) : Registry.applyPenaltyScore r p = r - p + 1/10 := by
  unfold Registry.applyPenaltyScore
  rw [max_eq_right (by linarith : (0 : ℚ) ≤ r - p)]
  rw [if_pos (by simpa [Registry.min_reputation] using h1)]
  rw [min_eq_left (by linarith : (1/10 : ℚ) ≤ 100 - (r - p))]

theorem applyPenaltyScore_low (r p : ℚ) (h1 : r - p ≤ 50) :
    Registry.applyPenaltyScore r p = max 0 (r - p) := by
  unfold Registry.applyPenaltyScore
  rw [if_neg]
  simp only [Registry.min_reputation, not_lt]
  exact max_le (by norm_num) h1

theorem applyPenaltyScore_nonneg (r p : ℚ) :
    0 ≤ Registry.applyPenaltyScore r p := by
  unfold Registry.applyPenaltyScore
  by_cases h : max 0 (r - p) > Registry.min_reputation
  · rw [if_pos h]
    rcases le_total (1/10 : ℚ) (100 - max 0 (r - p)) with hc | hc
    · rw [min_eq_left hc]
      have := le_max_left (0 : ℚ) (r - p)
      linarith
    · rw [min_eq_right hc]
      have := le_max_left (0 : ℚ) (r - p)
      linarith
  · rw [if_neg h]
    exact le_max_left _ _

theorem eventPenalty_cases {e : String} {p : ℚ}
    (h : eventPenalty e = some p) :
    (e = "missed_block" ∧ p = 2) ∨ (e = "invalid_block" ∧ p = 5) ∨
      (e = "double_sign" ∧ p = 20) := by
  unfold eventPenalty at h
  split at h <;> simp_all

/-- **C8** (counterexample): recording a `missed_block` for a fresh
validator (reputation 100) leaves reputation `98.1`, not `98`: after the
−2 penalty, `_apply_penalty` immediately restores `min(0.1, 100 − score)`
whenever the score is still above `min_reputation`, so the decrease is
1.9, not "exactly 2". -/
theorem missed_block_reputation_not_two :
    (dlookup wmC8.validators "A").map Registry.ValidatorStats.reputation_score =
      some 100 ∧
    (dlookup (Registry.update_reputation wmC8 "A" "missed_block" 0).validators
        "A").map Registry.ValidatorStats.reputation_score = some (981/10) ∧
    (981/10 : ℚ) ≠ 100 - 2 := by
  refine ⟨rfl, ?_, by norm_num⟩
  simp only [Registry.update_reputation, Registry.check_jail_conditions,
    Registry.applyPenaltyScore, Registry.pruneHistory, Registry.jail_validator,
    Registry.min_reputation, Registry.inactivity_threshold,
    Registry.missed_blocks_threshold, Registry.invalid_blocks_threshold,
    Registry.double_signing_threshold, wmC8, wStatsC8, dlookup, dset, sadd,
    sremove, String.reduceEq, reduceIte, List.filter_cons, List.filter_nil,
    decide_eq_true_eq, max_def, min_def, Option.map_some']
  norm_num
  exact ⟨_, rfl, rfl⟩

/-- **C8** (amended): for a registered validator and a penalized event
(`missed_block` −2, `invalid_block` −5, `double_sign` −20), when the call
does not also trigger the inactivity penalty, `update_reputation`
increments the matching counter, never drives the reputation below 0,
changes the reputation to `score − p + 0.1` when `score − p` is still
above `min_reputation` (the −p penalty followed by the immediate
`min(0.1, 100 − ·)` restore) and to `max(0, score − p)` otherwise, and
jails the validator (adds it to the jailed set and removes it from the
active set) exactly when the updated counters reach the thresholds of 10
missed / 3 invalid / 1 double-sign; otherwise the jailed and active sets
are unchanged. -/
theorem update_reputation_spec (m : Registry.ValidatorManager)
    (address event_type : String) (now : ℚ)
    (stats : Registry.ValidatorStats) (p : ℚ)
    (hv : dlookup m.validators address = some stats)
    (hp : eventPenalty event_type = some p)
    (hact : now - stats.last_active ≤ Registry.inactivity_threshold) :
    ∃ stats',
      dlookup (Registry.update_reputation m address event_type now).validators
          address = some stats' ∧
      stats'.missed_blocks = stats.missed_blocks +
        (if event_type = "missed_block" then 1 else 0) ∧
      stats'.invalid_blocks = stats.invalid_blocks +
        (if event_type = "invalid_block" then 1 else 0) ∧
      stats'.double_signs = stats.double_signs +
        (if event_type = "double_sign" then 1 else 0) ∧
      0 ≤ stats'.reputation_score ∧
      (50 < stats.reputation_score - p → stats.reputation_score ≤ 100 →
        stats'.reputation_score = stats.reputation_score - p + 1/10) ∧
      (stats.reputation_score - p ≤ 50 →
        stats'.reputation_score = max 0 (stats.reputation_score - p)) ∧
      ((stats'.missed_blocks ≥ Registry.missed_blocks_threshold ∨
          stats'.invalid_blocks ≥ Registry.invalid_blocks_threshold ∨
          stats'.double_signs ≥ Registry.double_signing_threshold) →
        address ∈ (Registry.update_reputation m address event_type
            now).jailed_validators ∧
        address ∉ (Registry.update_reputation m address event_type
            now).active_set) ∧
      (¬(stats'.missed_blocks ≥ Registry.missed_blocks_threshold ∨
          stats'.invalid_blocks ≥ Registry.invalid_blocks_threshold ∨
          stats'.double_signs ≥ Registry.double_signing_threshold) →
        (Registry.update_reputation m address event_type
            now).jailed_validators = m.jailed_validators ∧
        (Registry.update_reputation m address event_type
            now).active_set = m.active_set) := by
  have hnl : ¬(now - stats.last_active > Registry.inactivity_threshold) :=
    not_lt.mpr hact
  rcases eventPenalty_cases hp with ⟨he, hpe⟩ | ⟨he, hpe⟩ | ⟨he, hpe⟩ <;>
    subst he <;> subst hpe <;>
  · simp only [Registry.update_reputation, hv, String.reduceEq, reduceIte,
      if_neg hnl, Registry.check_jail_conditions, dlookup_dset_self]
    split
    next hj =>
      refine ⟨_, dlookup_dset_self _ _ _, by simp, by simp, by simp,
        applyPenaltyScore_nonneg _ _,
        fun h1 h2 => applyPenaltyScore_upper _ _ (by norm_num) h1 h2,
        fun h1 => applyPenaltyScore_low _ _ h1,
        fun _ => ⟨?_, ?_⟩, fun hcon => absurd hj hcon⟩
      · simp [Registry.jail_validator, mem_sadd]
      · simp only [Registry.jail_validator]
        exact not_mem_sremove_self _ _
    next hj =>
      exact ⟨_, dlookup_dset_self _ _ _, by simp, by simp, by simp,
        applyPenaltyScore_nonneg _ _,
        fun h1 h2 => applyPenaltyScore_upper _ _ (by norm_num) h1 h2,
        fun h1 => applyPenaltyScore_low _ _ h1,
        fun h => absurd h hj, fun _ => ⟨rfl, rfl⟩⟩

/-- Witness for C8's amended theorem: one `missed_block` on the fresh
validator `A` increments its missed counter to 1. -/
theorem update_reputation_spec_witness :
    ∃ stats',
      dlookup (Registry.update_reputation wmC8 "A" "missed_block" 0).validators
          "A" = some stats' ∧
      stats'.missed_blocks = 1 := by
  obtain ⟨s', hs, hmb, _⟩ :=
    update_reputation_spec wmC8 "A" "missed_block" 0 wStatsC8 2 rfl rfl
      (by norm_num [Registry.inactivity_threshold, wStatsC8])
  exact ⟨s', hs, by simpa [wStatsC8] using hmb⟩

/-! ## C10 — reward conservation -/

theorem foldl_commission_sum (g : String × Registry.DelegatorInfo → ℚ)
    (c : ℚ) :
    ∀ (ds : List (String × Registry.DelegatorInfo)) (vr : ℚ)
      (out : List (String × ℚ)),
      ((ds.foldl
          (fun (acc : ℚ × List (String × ℚ)) p =>
            (acc.1 + g p * c, acc.2 ++ [(p.1, g p - g p * c)]))
          (vr, out)).1 +
        (((ds.foldl
            (fun (acc : ℚ × List (String × ℚ)) p =>
              (acc.1 + g p * c, acc.2 ++ [(p.1, g p - g p * c)]))
            (vr, out)).2).map Prod.snd).sum) =
      vr + (out.map Prod.snd).sum + (ds.map g).sum := by
  intro ds
  induction ds with
  | nil =>
      intro vr out
      simp
  | cons d rest ih =>
      intro vr out
      simp only [List.foldl_cons, List.map_cons, List.sum_cons]
      rw [ih]
      simp only [List.map_append, List.sum_append, List.map_cons,
        List.sum_cons, List.map_nil, List.sum_nil]
      ring

theorem sum_shares_eq (T R : ℚ) (ds : List (String × Registry.DelegatorInfo)) :
    (ds.map fun p => p.2.amount / T * R).sum =
      (ds.map fun p => p.2.amount).sum / T * R := by
  induction ds with
  | nil => simp
  | cons d rest ih =>
      simp only [List.map_cons, List.sum_cons, ih]
      ring

/-- **C10** (confirmed): for a registered, non-jailed validator with
positive `total_stake` equal to `self_stake` plus the sum of its
delegators' amounts, `calculate_rewards` splits the computed total reward
without creating or destroying value: the validator's reward (its
self-stake share plus all collected commissions) and the delegators' net
rewards sum to exactly the total reward. -/
theorem calculate_rewards_conservation (expFn : ℚ → ℚ)
    (m : Registry.ValidatorManager) (address : String) (now : ℚ)
    (stats : Registry.ValidatorStats)
    (hv : dlookup m.validators address = some stats)
    (hj : address ∉ m.jailed_validators)
    (hpos : 0 < stats.total_stake)
    (hsum : stats.total_stake =
      stats.self_stake + (stats.delegators.map fun p => p.2.amount).sum) :
    (Registry.calculate_rewards expFn m address now).1 +
      (((Registry.calculate_rewards expFn m address now).2).map Prod.snd).sum =
      Registry.totalRewardOf expFn now stats := by
  have hT : stats.total_stake ≠ 0 := ne_of_gt hpos
  simp only [Registry.calculate_rewards, hv, if_neg hj]
  rw [foldl_commission_sum
    (fun p => p.2.amount / stats.total_stake *
      Registry.totalRewardOf expFn now stats)
    stats.commission_rate stats.delegators
    (stats.self_stake / stats.total_stake *
      Registry.totalRewardOf expFn now stats) []]
  rw [sum_shares_eq]
  simp only [List.map_nil, List.sum_nil, add_zero]
  calc stats.self_stake / stats.total_stake *
        Registry.totalRewardOf expFn now stats +
      (stats.delegators.map fun p => p.2.amount).sum / stats.total_stake *
        Registry.totalRewardOf expFn now stats
      = (stats.self_stake +
          (stats.delegators.map fun p => p.2.amount).sum) / stats.total_stake *
          Registry.totalRewardOf expFn now stats := by ring
    _ = stats.total_stake / stats.total_stake *
          Registry.totalRewardOf expFn now stats := by rw [← hsum]
    _ = Registry.totalRewardOf expFn now stats := by
          rw [div_self hT, one_mul]

/-- Witness for C10 at a validator with self-stake 1000 and one delegator
of 500 (total 1500). -/
theorem calculate_rewards_conservation_witness :
    (Registry.calculate_rewards (fun _ => 1) wmC10 "A" 0).1 +
      (((Registry.calculate_rewards (fun _ => 1) wmC10 "A" 0).2).map
        Prod.snd).sum =
      Registry.totalRewardOf (fun _ => 1) 0 wStatsC10 :=
  calculate_rewards_conservation (fun _ => 1) wmC10 "A" 0 wStatsC10 rfl
    (by simp [wmC10])
    (by norm_num [wStatsC10])
    (by
      simp only [wStatsC10, List.map_cons, List.map_nil, List.sum_cons,
        List.sum_nil]
      norm_num)

end Vernachain
